import Mathlib

/-!
Verification of `tracing_json_span_fields` (src/lib.rs): a `tracing_subscriber`
layer that writes events as flat JSON records, merging the fields of every
active span into each event.  The embedding below translates the layer's data
model (field values, the `serde_json` map, the per-span storage registry) and
its callbacks (`on_new_span`, `on_record`, `on_event`, `enabled`,
`max_level_hint`) together with the builder methods and the default stdout
sink.
-/

/-- Model of an IEEE-754 binary64 payload as the code observes it: the only
classification the JSON conversion performs is finite versus non-finite (NaN
or an infinity cannot be represented by a `serde_json::Number`); `bits`
identifies the particular value. -/
structure F64 where
  isFinite : Bool
  bits : Nat
  deriving DecidableEq

/-- Internal representation of a `serde_json::Number` (PosInt / NegInt / Float). -/
inductive JNumber where
  | float (v : F64)
  | int (v : Int)
  | uint (v : Nat)
  deriving DecidableEq

/-- The subset of `serde_json::Value` that the layer constructs: `null` (only
from a non-finite float), booleans, numbers and strings. -/
inductive JValue where
  | null
  | bool (b : Bool)
  | num (n : JNumber)
  | str (s : String)
  deriving DecidableEq

/-- The JSON kind of a value. -/
inductive JKind where
  | null
  | boolean
  | number
  | string
  deriving DecidableEq

def JValue.kind : JValue → JKind
  | .null => .null
  | .bool _ => .boolean
  | .num _ => .number
  | .str _ => .string

/-- A typed field value: the closed set of kinds a `tracing::field::Visit`
implementation dispatches on.  An error-like value is represented by the text
its Display implementation renders, and any other debuggable value by its
Debug rendering. -/
inductive FieldValue where
  | f64 (v : F64)
  | i64 (v : Int)
  | u64 (v : Nat)
  | bool (b : Bool)
  | str (s : String)
  | error (display : String)
  | debug (render : String)
  deriving DecidableEq

/-- Model of `serde_json::Map<String, Value>` as an association list.  Every
map the layer builds starts empty and grows only through `insert`, so keys
are never duplicated. -/
abbrev JMap := List (String × JValue)

def JMap.get? : JMap → String → Option JValue
  | [], _ => none
  | (k', v) :: rest, k => if k' = k then some v else JMap.get? rest k

/-- Model of `Map::insert`: replace the binding in place when the key is
already present, append it otherwise. -/
def JMap.insert : JMap → String → JValue → JMap
  | [], k, v => [(k, v)]
  | (k', v') :: rest, k, v =>
      if k' = k then (k, v) :: rest else (k', v') :: JMap.insert rest k v

def JMap.keys (m : JMap) : List String := m.map Prod.fst

def JMap.NodupKeys (m : JMap) : Prop := (JMap.keys m).Nodup

instance (m : JMap) : Decidable (JMap.NodupKeys m) :=
  List.nodupDecidable (JMap.keys m)

/-- Model of the merge loop in `on_event`:
`for (key, value) in field_data ... fields.insert(key.clone(), value.clone())`. -/
def JMap.insertAll (acc src : JMap) : JMap :=
  src.foldl (fun a p => JMap.insert a p.1 p.2) acc

theorem JMap.get?_insert_self (m : JMap) (k : String) (v : JValue) :
    JMap.get? (JMap.insert m k v) k = some v := by
  induction m with
  | nil => simp [JMap.insert, JMap.get?]
  | cons p rest ih =>
      obtain ⟨k', v'⟩ := p
      by_cases h : k' = k
      · simp [JMap.insert, h, JMap.get?]
      · simp [JMap.insert, h, JMap.get?, ih]

theorem JMap.get?_insert_ne (m : JMap) (k k' : String) (v : JValue) (h : k' ≠ k) :
    JMap.get? (JMap.insert m k v) k' = JMap.get? m k' := by
  have hne : k ≠ k' := fun hh => h hh.symm
  induction m with
  | nil => simp [JMap.insert, JMap.get?, hne]
  | cons p rest ih =>
      obtain ⟨k0, v0⟩ := p
      by_cases h0 : k0 = k
      · subst h0
        simp [JMap.insert, JMap.get?, hne]
      · simp [JMap.insert, h0, JMap.get?, ih]

theorem JMap.mem_keys_insert (m : JMap) (k k' : String) (v : JValue) :
    k' ∈ JMap.keys (JMap.insert m k v) ↔ k' = k ∨ k' ∈ JMap.keys m := by
  induction m with
  | nil => simp [JMap.insert, JMap.keys]
  | cons p rest ih =>
      obtain ⟨k0, v0⟩ := p
      by_cases h0 : k0 = k
      · subst h0
        have hstep : JMap.insert ((k0, v0) :: rest) k0 v = (k0, v) :: rest := by
          simp [JMap.insert]
        rw [hstep]
        simp only [JMap.keys, List.map_cons, List.mem_cons]
        tauto
      · simp only [JMap.insert, if_neg h0, JMap.keys, List.map_cons, List.mem_cons] at *
        tauto

theorem JMap.get?_eq_none_of_not_mem (m : JMap) (k : String)
    (h : k ∉ JMap.keys m) : JMap.get? m k = none := by
  induction m with
  | nil => rfl
  | cons p rest ih =>
      obtain ⟨k0, v0⟩ := p
      simp only [JMap.keys, List.map_cons, List.mem_cons, not_or] at h
      have h1 : k0 ≠ k := fun hh => h.1 hh.symm
      simp [JMap.get?, h1, ih h.2]

theorem JMap.get?_insertAll (src : JMap) (h : JMap.NodupKeys src) (acc : JMap) (k : String) :
    JMap.get? (JMap.insertAll acc src) k =
      match JMap.get? src k with
      | some v => some v
      | none => JMap.get? acc k := by
  induction src generalizing acc with
  | nil => simp [JMap.insertAll, JMap.get?]
  | cons p rest ih =>
      obtain ⟨k0, v0⟩ := p
      simp only [JMap.NodupKeys, JMap.keys, List.map_cons, List.nodup_cons] at h
      obtain ⟨hk0, hnd⟩ := h
      have hstep : JMap.insertAll acc ((k0, v0) :: rest) =
          JMap.insertAll (JMap.insert acc k0 v0) rest := rfl
      rw [hstep, ih hnd (JMap.insert acc k0 v0)]
      by_cases hk : k0 = k
      · subst hk
        have hrk : JMap.get? rest k0 = none :=
          JMap.get?_eq_none_of_not_mem rest k0 hk0
        simp [JMap.get?, hrk, JMap.get?_insert_self]
      · have hne : k ≠ k0 := fun hh => hk hh.symm
        simp only [JMap.get?, if_neg hk]
        cases hr : JMap.get? rest k with
        | some v => simp [hr]
        | none => simp [hr, JMap.get?_insert_ne acc k0 k v0 hne]

theorem JMap.mem_keys_insertAll (src acc : JMap) (k : String) :
    k ∈ JMap.keys (JMap.insertAll acc src) ↔
      k ∈ JMap.keys acc ∨ k ∈ JMap.keys src := by
  induction src generalizing acc with
  | nil => simp [JMap.insertAll, JMap.keys]
  | cons p rest ih =>
      obtain ⟨k0, v0⟩ := p
      have hstep : JMap.insertAll acc ((k0, v0) :: rest) =
          JMap.insertAll (JMap.insert acc k0 v0) rest := rfl
      rw [hstep, ih (JMap.insert acc k0 v0)]
      rw [JMap.mem_keys_insert]
      simp only [JMap.keys, List.map_cons, List.mem_cons]
      tauto

/-- Conversion a visited value undergoes on its way into the map, following
`serde_json::json!` on each argument: a finite f64 becomes a JSON number and a
non-finite one becomes JSON null (`serde_json` cannot represent NaN or an
infinity as a `Number`); i64/u64 become numbers; a bool a boolean; a string a
string; an error-like value the string of its Display text; any other
debuggable value the string of its Debug rendering. -/
def FieldValue.toJson : FieldValue → JValue
  | .f64 v => if v.isFinite then .num (.float v) else .null
  | .i64 v => .num (.int v)
  | .u64 v => .num (.uint v)
  | .bool b => .bool b
  | .str s => .str s
  | .error d => .str d
  | .debug d => .str d

/-- Model of `JsonVisitor`: each arm mirrors one of the seven `record_*`
methods, all of which insert `(field name, converted value)` into the
borrowed map. -/
def JsonVisitor.visit (m : JMap) (name : String) (v : FieldValue) : JMap :=
  match v with
  | .f64 x => JMap.insert m name (if x.isFinite then .num (.float x) else .null)
  | .i64 x => JMap.insert m name (.num (.int x))
  | .u64 x => JMap.insert m name (.num (.uint x))
  | .bool b => JMap.insert m name (.bool b)
  | .str s => JMap.insert m name (.str s)
  | .error d => JMap.insert m name (.str d)
  | .debug d => JMap.insert m name (.str d)

theorem JsonVisitor.visit_eq_insert (m : JMap) (k : String) (v : FieldValue) :
    JsonVisitor.visit m k v = JMap.insert m k (FieldValue.toJson v) := by
  cases v <;> rfl

/-- Model of `attrs.record(&mut visitor)` / `values.record(&mut visitor)` /
`event.record(&mut visitor)`: visit a list of field writes in order. -/
def JsonVisitor.recordAll (m : JMap) (ws : List (String × FieldValue)) : JMap :=
  ws.foldl (fun a p => JsonVisitor.visit a p.1 p.2) m

/-- tracing verbosity levels, ordered `ERROR < WARN < INFO < DEBUG < TRACE`
(`TRACE` is the most verbose and compares greatest). -/
inductive Level where
  | trace
  | debug
  | info
  | warn
  | error
  deriving DecidableEq

/-- Position of a level in tracing's `Level` order, `ERROR` least. -/
def Level.toNat : Level → Nat
  | .error => 1
  | .warn => 2
  | .info => 3
  | .debug => 4
  | .trace => 5

/-- Model of `Level::as_str` as used by `event.metadata().level().as_str()`. -/
def Level.as_str : Level → String
  | .trace => "TRACE"
  | .debug => "DEBUG"
  | .info => "INFO"
  | .warn => "WARN"
  | .error => "ERROR"

/-- tracing `LevelFilter`: `OFF` plus the five levels, `OFF` comparing least. -/
inductive LevelFilter where
  | off
  | error
  | warn
  | info
  | debug
  | trace
  deriving DecidableEq

def LevelFilter.toNat : LevelFilter → Nat
  | .off => 0
  | .error => 1
  | .warn => 2
  | .info => 3
  | .debug => 4
  | .trace => 5

/-- Model of the comparison `metadata.level() <= &self.max_level`
(`PartialOrd<LevelFilter> for Level`). -/
def levelLe (l : Level) (f : LevelFilter) : Bool :=
  Level.toNat l ≤ LevelFilter.toNat f

/-- Model of `JsonStdout`: the default sink, holding only the `pretty` flag. -/
structure JsonStdout where
  pretty : Bool
  deriving DecidableEq

/-- Model of `JsonStdout::default()`: `bool` defaults to `false`. -/
def JsonStdout.default : JsonStdout := { pretty := false }

/-- Model of the `Iso8601` formatting type; `DEFAULT` is the value
`Iso8601::DEFAULT` used by the layer's `Default` impl. -/
inductive Iso8601 where
  | DEFAULT
  deriving DecidableEq

/-- Model of `JsonLayer<O, F>`: the three configuration components. -/
structure JsonLayer (O F : Type) where
  output : O
  timestamp_format : F
  max_level : LevelFilter

/-- Model of `JsonLayer::default()`. -/
def JsonLayer.default : JsonLayer JsonStdout Iso8601 :=
  { output := JsonStdout.default
    timestamp_format := Iso8601.DEFAULT
    max_level := LevelFilter.info }

/-- Model of `JsonLayer::with_output`. -/
def JsonLayer.with_output {O F O2 : Type} (l : JsonLayer O F) (output : O2) :
    JsonLayer O2 F :=
  { output := output
    timestamp_format := l.timestamp_format
    max_level := l.max_level }

/-- Model of `JsonLayer::with_timestamp_format`. -/
def JsonLayer.with_timestamp_format {O F F2 : Type} (l : JsonLayer O F)
    (timestamp_format : F2) : JsonLayer O F2 :=
  { output := l.output
    timestamp_format := timestamp_format
    max_level := l.max_level }

/-- Model of `JsonLayer::with_level`. -/
def JsonLayer.with_level {O F : Type} (l : JsonLayer O F) (max_level : LevelFilter) :
    JsonLayer O F :=
  { output := l.output
    timestamp_format := l.timestamp_format
    max_level := max_level }

/-- Model of `JsonLayer::pretty()`. -/
def JsonLayer.pretty : JsonLayer JsonStdout Iso8601 :=
  JsonLayer.with_output JsonLayer.default { pretty := true }

/-- Model of `Layer::enabled`: `metadata.level() <= &self.max_level`. -/
def JsonLayer.enabled {O F : Type} (l : JsonLayer O F) (level : Level) : Bool :=
  levelLe level l.max_level

/-- Model of `Layer::max_level_hint`: `Some(self.max_level)`. -/
def JsonLayer.max_level_hint {O F : Type} (l : JsonLayer O F) : Option LevelFilter :=
  some l.max_level

/-- The two ways a callback can hit an `unwrap` on missing per-span state:
`ctx.span(id).unwrap()` failing (`missingSpan`) or
`extensions.get::<CustomFieldStorage>().unwrap()` failing (`missingStorage`). -/
inductive LayerError where
  | missingSpan
  | missingStorage
  deriving DecidableEq

/-- The registry's per-span side table: span id paired with the span's
optional `CustomFieldStorage` extension (`none` models a live span whose
storage was never inserted). -/
abbrev RegistryState := List (Nat × Option JMap)

def RegistryState.lookupSpan : RegistryState → Nat → Option (Option JMap)
  | [], _ => none
  | (i, s) :: rest, id => if i = id then some s else RegistryState.lookupSpan rest id

def RegistryState.setStorage : RegistryState → Nat → JMap → RegistryState
  | [], _, _ => []
  | (i, s) :: rest, id, m =>
      if i = id then (i, some m) :: rest
      else (i, s) :: RegistryState.setStorage rest id m

/-- Model of `JsonLayer::on_new_span`: visit the attributes into a fresh map,
look the span up in the registry (`ctx.span(id).unwrap()`) and store the map
as the span's `CustomFieldStorage` extension. -/
def on_new_span (attrs : List (String × FieldValue)) (id : Nat) (st : RegistryState) :
    Except LayerError RegistryState :=
  match RegistryState.lookupSpan st id with
  | none => .error .missingSpan
  | some _ => .ok (RegistryState.setStorage st id (JsonVisitor.recordAll [] attrs))

/-- Model of `JsonLayer::on_record`: look up the span, then its
`CustomFieldStorage` (`extensions_mut.get_mut::<CustomFieldStorage>().unwrap()`,
the `missingStorage` failure), and visit the new values into the stored map. -/
def on_record (id : Nat) (values : List (String × FieldValue)) (st : RegistryState) :
    Except LayerError RegistryState :=
  match RegistryState.lookupSpan st id with
  | none => .error .missingSpan
  | some none => .error .missingStorage
  | some (some m) => .ok (RegistryState.setStorage st id (JsonVisitor.recordAll m values))

/-- Metadata of an event: target, name and level, as read from
`event.metadata()`. -/
structure EventMetadata where
  target : String
  name : String
  level : Level

/-- Model of the span loop of `on_event` over `scope.from_root()`, root-most
first: each span's `extensions.get::<CustomFieldStorage>().unwrap()` either
yields the stored map, which is merged into the accumulator, or fails. -/
def mergeScopeE : List (Option JMap) → JMap → Except LayerError JMap
  | [], acc => .ok acc
  | none :: _, _ => .error .missingStorage
  | some m :: rest, acc => mergeScopeE rest (JMap.insertAll acc m)

/-- Tail of `on_event`: visit the event's own fields into the merged map,
then insert the four reserved metadata keys, `target`, `name`, `log_level`
and `timestamp` last, in that order.  `timestamp` is the string produced by
formatting `OffsetDateTime::now_utc()` at assembly time. -/
def assemble (fields : JMap) (eventFields : List (String × FieldValue))
    (meta : EventMetadata) (timestamp : String) : JMap :=
  let fields := JsonVisitor.recordAll fields eventFields
  let fields := JMap.insert fields "target" (.str meta.target)
  let fields := JMap.insert fields "name" (.str meta.name)
  let fields := JMap.insert fields "log_level" (.str (Level.as_str meta.level))
  let fields := JMap.insert fields "timestamp" (.str timestamp)
  fields

/-- Model of `JsonLayer::on_event`: `scope` is `ctx.event_scope(event)`
(`none` when the event lies outside every span); the chain is walked root
first and merged, the event's own fields and the reserved metadata keys are
then added, and the resulting object is handed to the sink. -/
def on_event (scope : Option (List (Option JMap)))
    (eventFields : List (String × FieldValue)) (meta : EventMetadata)
    (timestamp : String) : Except LayerError JMap :=
  match scope with
  | some chain =>
      match mergeScopeE chain [] with
      | .error e => .error e
      | .ok fields => .ok (assemble fields eventFields meta timestamp)
  | none => .ok (assemble [] eventFields meta timestamp)

/-- Outcome of the underlying write to the standard output stream. -/
inductive StdoutIO where
  | ok
  | writeFailed
  deriving DecidableEq

/-- Model of `JsonStdout::write`: serialization of a `serde_json::Value`
cannot fail (its keys are strings), and the line is printed with the
`println` macro, which panics when writing to stdout fails.  An I/O failure
therefore surfaces as a panic of the calling thread (the `.error` branch),
not through any side channel. -/
def JsonStdout.write (_o : JsonStdout) (_value : JMap) (io : StdoutIO) :
    Except String Unit :=
  match io with
  | .ok => .ok ()
  | .writeFailed => .error "failed printing to stdout"

/-- The four reserved metadata keys, in the order `on_event` inserts them. -/
def reservedKeys : List String := ["target", "name", "log_level", "timestamp"]

/-- Value of the latest write of key `k` in a write sequence (later entries in
the list are later writes). -/
def lastWrite : List (String × FieldValue) → String → Option FieldValue
  | [], _ => none
  | p :: rest, k =>
      match lastWrite rest k with
      | some v => some v
      | none => if p.1 = k then some p.2 else none

/-- Value contributed for key `k` by the innermost (closest-to-event) span of
the chain that holds `k`; the chain is listed root-most first. -/
def lastContrib : List JMap → String → Option JValue
  | [], _ => none
  | m :: rest, k =>
      match lastContrib rest k with
      | some v => some v
      | none => JMap.get? m k

/-- The `on_event` span merge as a total function over a chain of present
stores, root-most first. -/
def mergeScope (chain : List JMap) (acc : JMap) : JMap :=
  chain.foldl JMap.insertAll acc

/-- Follows the spec's words (Scope Merge Engine): start with an empty
mapping; iterate the chain from root to innermost; for each span's field
snapshot insert every (key, value) pair into the accumulator, overwriting any
existing value for the same key. -/
def specMerge (chain : List JMap) : JMap :=
  chain.foldl (fun acc m => m.foldl (fun a p => JMap.insert a p.1 p.2) acc) []

/-- Severity rank of a level: `error` is the most severe, `trace` the least
(inverse of the verbosity order). -/
def Level.severity : Level → Nat
  | .trace => 1
  | .debug => 2
  | .info => 3
  | .warn => 4
  | .error => 5

/-- The minimum accepted level a filter denotes, if any (`OFF` denotes none). -/
def LevelFilter.minLevel : LevelFilter → Option Level
  | .off => none
  | .error => some .error
  | .warn => some .warn
  | .info => some .info
  | .debug => some .debug
  | .trace => some .trace

/-- Follows the spec's words (Level Gate): a span or event is accepted iff
its severity is at or above (more severe than or equal to) the configured
minimum; `OFF` accepts nothing. -/
def severityAtOrAbove (l : Level) (f : LevelFilter) : Bool :=
  match LevelFilter.minLevel f with
  | none => false
  | some lv => decide (Level.severity l ≥ Level.severity lv)

/-- Modelled from the spec: the host runtime (the tracing crate, an external
collaborator not in src/) consults `enabled` before dispatching an event to
the layer; a rejected event reaches neither the merge engine nor the sink
(`none`), an accepted one is processed by `on_event`. -/
def processEvent {O F : Type} (layer : JsonLayer O F) (level : Level)
    (scope : Option (List (Option JMap))) (eventFields : List (String × FieldValue))
    (meta : EventMetadata) (timestamp : String) : Option (Except LayerError JMap) :=
  if JsonLayer.enabled layer level then some (on_event scope eventFields meta timestamp)
  else none

/-- Modelled from the spec: the host runtime consults `enabled` before
dispatching span creation; a rejected span causes no store allocation and
leaves the registry untouched. -/
def processNewSpan {O F : Type} (layer : JsonLayer O F) (level : Level)
    (attrs : List (String × FieldValue)) (id : Nat) (st : RegistryState) :
    Except LayerError RegistryState :=
  if JsonLayer.enabled layer level then on_new_span attrs id st else .ok st

theorem get?_recordAll (ws : List (String × FieldValue)) (m : JMap) (k : String) :
    JMap.get? (JsonVisitor.recordAll m ws) k =
      match lastWrite ws k with
      | some v => some (FieldValue.toJson v)
      | none => JMap.get? m k := by
  induction ws generalizing m with
  | nil => rfl
  | cons p rest ih =>
      have hstep : JsonVisitor.recordAll m (p :: rest) =
          JsonVisitor.recordAll (JsonVisitor.visit m p.1 p.2) rest := rfl
      rw [hstep, ih]
      cases hrest : lastWrite rest k with
      | some v => simp [lastWrite, hrest]
      | none =>
          rw [JsonVisitor.visit_eq_insert]
          by_cases hp : p.1 = k
          · subst hp
            simp [lastWrite, hrest, JMap.get?_insert_self]
          · have hne : k ≠ p.1 := fun hh => hp hh.symm
            simp [lastWrite, hrest, hp, JMap.get?_insert_ne m p.1 k _ hne]

theorem mem_keys_recordAll (ws : List (String × FieldValue)) (m : JMap) (k : String) :
    k ∈ JMap.keys (JsonVisitor.recordAll m ws) ↔
      k ∈ JMap.keys m ∨ k ∈ ws.map Prod.fst := by
  induction ws generalizing m with
  | nil => simp [JsonVisitor.recordAll]
  | cons p rest ih =>
      have hstep : JsonVisitor.recordAll m (p :: rest) =
          JsonVisitor.recordAll (JsonVisitor.visit m p.1 p.2) rest := rfl
      rw [hstep, ih, JsonVisitor.visit_eq_insert, JMap.mem_keys_insert]
      simp only [List.map_cons, List.mem_cons]
      tauto

theorem get?_mergeScope (chain : List JMap) (h : ∀ m ∈ chain, JMap.NodupKeys m)
    (acc : JMap) (k : String) :
    JMap.get? (mergeScope chain acc) k =
      match lastContrib chain k with
      | some v => some v
      | none => JMap.get? acc k := by
  induction chain generalizing acc with
  | nil => rfl
  | cons m rest ih =>
      have hm : JMap.NodupKeys m := h m (by simp)
      have hrest : ∀ x ∈ rest, JMap.NodupKeys x := fun x hx => h x (by simp [hx])
      have hstep : mergeScope (m :: rest) acc = mergeScope rest (JMap.insertAll acc m) := rfl
      rw [hstep, ih hrest]
      cases hrc : lastContrib rest k with
      | some v => simp [lastContrib, hrc]
      | none =>
          rw [JMap.get?_insertAll m hm acc k]
          cases hmk : JMap.get? m k <;> simp [lastContrib, hrc, hmk]

theorem mem_keys_mergeScope (chain : List JMap) (acc : JMap) (k : String) :
    k ∈ JMap.keys (mergeScope chain acc) ↔
      k ∈ JMap.keys acc ∨ ∃ m ∈ chain, k ∈ JMap.keys m := by
  induction chain generalizing acc with
  | nil => simp [mergeScope]
  | cons m rest ih =>
      have hstep : mergeScope (m :: rest) acc = mergeScope rest (JMap.insertAll acc m) := rfl
      rw [hstep, ih, JMap.mem_keys_insertAll]
      simp only [List.mem_cons]
      constructor
      · rintro ((h | h) | ⟨x, hx, hk⟩)
        · exact Or.inl h
        · exact Or.inr ⟨m, Or.inl rfl, h⟩
        · exact Or.inr ⟨x, Or.inr hx, hk⟩
      · rintro (h | ⟨x, (rfl | hx), hk⟩)
        · exact Or.inl (Or.inl h)
        · exact Or.inl (Or.inr hk)
        · exact Or.inr ⟨x, hx, hk⟩

theorem mergeScope_eq_specMerge (chain : List JMap) :
    mergeScope chain [] = specMerge chain := rfl

theorem mergeScopeE_map_some (chain : List JMap) (acc : JMap) :
    mergeScopeE (chain.map some) acc = .ok (mergeScope chain acc) := by
  induction chain generalizing acc with
  | nil => rfl
  | cons m rest ih => exact ih (JMap.insertAll acc m)

theorem lookupSpan_setStorage_self (st : RegistryState) (id : Nat) (m : JMap)
    (s : Option JMap) (h : RegistryState.lookupSpan st id = some s) :
    RegistryState.lookupSpan (RegistryState.setStorage st id m) id = some (some m) := by
  induction st with
  | nil => exact absurd h (by simp [RegistryState.lookupSpan])
  | cons p rest ih =>
      obtain ⟨i, s0⟩ := p
      by_cases hi : i = id
      · simp [RegistryState.setStorage, RegistryState.lookupSpan, hi]
      · simp only [RegistryState.lookupSpan, if_neg hi] at h
        simp [RegistryState.setStorage, RegistryState.lookupSpan, hi, ih h]

theorem lookupSpan_setStorage_ne (st : RegistryState) (id id' : Nat) (m : JMap)
    (h : id' ≠ id) :
    RegistryState.lookupSpan (RegistryState.setStorage st id m) id' =
      RegistryState.lookupSpan st id' := by
  induction st with
  | nil => rfl
  | cons p rest ih =>
      obtain ⟨i, s0⟩ := p
      by_cases hi : i = id
      · subst hi
        have hii : i ≠ id' := fun hh => h hh.symm
        simp [RegistryState.setStorage, RegistryState.lookupSpan, hii]
      · simp only [RegistryState.setStorage, if_neg hi, RegistryState.lookupSpan]
        by_cases hi' : i = id'
        · simp [hi']
        · simp [hi', ih]

theorem get?_assemble_timestamp (fields : JMap) (ev : List (String × FieldValue))
    (meta : EventMetadata) (ts : String) :
    JMap.get? (assemble fields ev meta ts) "timestamp" = some (.str ts) := by
  unfold assemble
  exact JMap.get?_insert_self _ _ _

theorem get?_assemble_log_level (fields : JMap) (ev : List (String × FieldValue))
    (meta : EventMetadata) (ts : String) :
    JMap.get? (assemble fields ev meta ts) "log_level"
      = some (.str (Level.as_str meta.level)) := by
  unfold assemble
  rw [JMap.get?_insert_ne _ _ _ _ (by decide)]
  exact JMap.get?_insert_self _ _ _

theorem get?_assemble_name (fields : JMap) (ev : List (String × FieldValue))
    (meta : EventMetadata) (ts : String) :
    JMap.get? (assemble fields ev meta ts) "name" = some (.str meta.name) := by
  unfold assemble
  rw [JMap.get?_insert_ne _ _ _ _ (by decide), JMap.get?_insert_ne _ _ _ _ (by decide)]
  exact JMap.get?_insert_self _ _ _

theorem get?_assemble_target (fields : JMap) (ev : List (String × FieldValue))
    (meta : EventMetadata) (ts : String) :
    JMap.get? (assemble fields ev meta ts) "target" = some (.str meta.target) := by
  unfold assemble
  rw [JMap.get?_insert_ne _ _ _ _ (by decide), JMap.get?_insert_ne _ _ _ _ (by decide),
    JMap.get?_insert_ne _ _ _ _ (by decide)]
  exact JMap.get?_insert_self _ _ _

theorem get?_assemble_not_reserved (fields : JMap) (ev : List (String × FieldValue))
    (meta : EventMetadata) (ts : String) (k : String) (hk : k ∉ reservedKeys) :
    JMap.get? (assemble fields ev meta ts) k =
      match lastWrite ev k with
      | some v => some (FieldValue.toJson v)
      | none => JMap.get? fields k := by
  simp only [reservedKeys, List.mem_cons, List.not_mem_nil, or_false, not_or] at hk
  obtain ⟨h1, h2, h3, h4⟩ := hk
  unfold assemble
  rw [JMap.get?_insert_ne _ _ _ _ h4, JMap.get?_insert_ne _ _ _ _ h3,
    JMap.get?_insert_ne _ _ _ _ h2, JMap.get?_insert_ne _ _ _ _ h1]
  exact get?_recordAll ev fields k

theorem mem_keys_assemble (fields : JMap) (ev : List (String × FieldValue))
    (meta : EventMetadata) (ts : String) (k : String) :
    k ∈ JMap.keys (assemble fields ev meta ts) ↔
      k ∈ reservedKeys ∨ k ∈ JMap.keys fields ∨ k ∈ ev.map Prod.fst := by
  unfold assemble
  rw [JMap.mem_keys_insert, JMap.mem_keys_insert, JMap.mem_keys_insert,
    JMap.mem_keys_insert, mem_keys_recordAll]
  simp only [reservedKeys, List.mem_cons, List.mem_singleton, List.not_mem_nil, or_false]
  tauto

/-- C1: for every event inside a chain of active spans (given root-most
first, each store with distinct keys as any visitor-built store has), the
merged span-field mapping computed by the `on_event` loop equals the spec's
algorithm — start from an empty mapping, iterate root to innermost, insert
every pair overwriting — so for every key the surviving value is that of the
innermost span holding it, and the merged key set is the union of the
chain's key sets. -/
theorem c1_scope_merge (chain : List JMap) (h : ∀ m ∈ chain, JMap.NodupKeys m) :
    mergeScope chain [] = specMerge chain
    ∧ (∀ k, JMap.get? (mergeScope chain []) k = lastContrib chain k)
    ∧ (∀ k, k ∈ JMap.keys (mergeScope chain []) ↔ ∃ m ∈ chain, k ∈ JMap.keys m) := by
  refine ⟨mergeScope_eq_specMerge chain, ?_, ?_⟩
  · intro k
    rw [get?_mergeScope chain h []]
    cases lastContrib chain k <;> rfl
  · intro k
    rw [mem_keys_mergeScope]
    simp [JMap.keys]

/-- Witness for C1 at a two-span chain that collides on one key: the
innermost span's value survives. -/
theorem c1_scope_merge_witness :
    JMap.get?
      (mergeScope [[("overwrite", JValue.num (JNumber.uint 0))],
        [("overwrite", JValue.num (JNumber.uint 1))]] []) "overwrite"
      = some (JValue.num (JNumber.uint 1)) := by
  have h := c1_scope_merge
    [[("overwrite", JValue.num (JNumber.uint 0))],
      [("overwrite", JValue.num (JNumber.uint 1))]] (by decide)
  rw [h.2.1 "overwrite"]
  rfl

/-- C2: in every output record the four reserved metadata keys carry the
metadata values no matter what the spans or the event wrote, because they
are inserted after all span and event fields; a non-reserved key carries the
event's own (latest) value whenever the event wrote it, and the innermost
span's value only otherwise. -/
theorem c2_metadata_and_event_override (chain : List JMap)
    (h : ∀ m ∈ chain, JMap.NodupKeys m) (ev : List (String × FieldValue))
    (meta : EventMetadata) (ts : String) (r : JMap)
    (hok : on_event (some (chain.map some)) ev meta ts = .ok r) :
    JMap.get? r "target" = some (.str meta.target)
    ∧ JMap.get? r "name" = some (.str meta.name)
    ∧ JMap.get? r "log_level" = some (.str (Level.as_str meta.level))
    ∧ JMap.get? r "timestamp" = some (.str ts)
    ∧ (∀ k, k ∉ reservedKeys →
        JMap.get? r k =
          match lastWrite ev k with
          | some v => some (FieldValue.toJson v)
          | none => lastContrib chain k) := by
  simp only [on_event, mergeScopeE_map_some, Except.ok.injEq] at hok
  subst hok
  refine ⟨get?_assemble_target _ _ _ _, get?_assemble_name _ _ _ _,
    get?_assemble_log_level _ _ _ _, get?_assemble_timestamp _ _ _ _, ?_⟩
  intro k hk
  rw [get?_assemble_not_reserved _ _ _ _ _ hk]
  cases hlw : lastWrite ev k with
  | some v => rfl
  | none =>
      rw [get?_mergeScope chain h []]
      cases lastContrib chain k <;> rfl

/-- Witness for C2: a span field named `target` and an event field named
`log_level` are both overwritten by metadata, while the event's plain field
comes through. -/
theorem c2_metadata_and_event_override_witness :
    JMap.get?
      (assemble (mergeScope [[("target", JValue.str "from span")]] [])
        [("log_level", FieldValue.bool true), ("x", FieldValue.u64 5)]
        ⟨"tg", "nm", Level.info⟩ "T") "target" = some (JValue.str "tg")
    ∧ JMap.get?
      (assemble (mergeScope [[("target", JValue.str "from span")]] [])
        [("log_level", FieldValue.bool true), ("x", FieldValue.u64 5)]
        ⟨"tg", "nm", Level.info⟩ "T") "x" = some (JValue.num (JNumber.uint 5)) := by
  obtain ⟨h1, h2, h3, h4, h5⟩ := c2_metadata_and_event_override
    [[("target", JValue.str "from span")]] (by decide)
    [("log_level", FieldValue.bool true), ("x", FieldValue.u64 5)]
    ⟨"tg", "nm", Level.info⟩ "T"
    (assemble (mergeScope [[("target", JValue.str "from span")]] [])
      [("log_level", FieldValue.bool true), ("x", FieldValue.u64 5)]
      ⟨"tg", "nm", Level.info⟩ "T")
    (by rfl)
  refine ⟨h1, ?_⟩
  rw [h5 "x" (by decide)]
  rfl

/-- C3: a span's field store is determined by the sequence of writes it saw
(span-creation attributes followed by `record` calls, which compose by
concatenation): a repeated key ends at the value of its latest write, no
write removes a key — the key set is exactly the set of keys ever written —
and an `on_record` call on one span leaves every other span's store
untouched. -/
theorem c3_store_last_write_wins :
    (∀ (m : JMap) (a b : List (String × FieldValue)),
        JsonVisitor.recordAll (JsonVisitor.recordAll m a) b =
          JsonVisitor.recordAll m (a ++ b))
    ∧ (∀ (ws : List (String × FieldValue)) (k : String),
        JMap.get? (JsonVisitor.recordAll [] ws) k =
          Option.map FieldValue.toJson (lastWrite ws k))
    ∧ (∀ (ws : List (String × FieldValue)) (k : String),
        k ∈ JMap.keys (JsonVisitor.recordAll [] ws) ↔ k ∈ ws.map Prod.fst)
    ∧ (∀ (st st' : RegistryState) (id id' : Nat) (vs : List (String × FieldValue)),
        on_record id vs st = .ok st' → id' ≠ id →
        RegistryState.lookupSpan st' id' = RegistryState.lookupSpan st id') := by
  refine ⟨?_, ?_, ?_, ?_⟩
  · intro m a b
    unfold JsonVisitor.recordAll
    rw [List.foldl_append]
  · intro ws k
    rw [get?_recordAll]
    cases lastWrite ws k <;> rfl
  · intro ws k
    rw [mem_keys_recordAll]
    simp [JMap.keys]
  · intro st st' id id' vs hok hne
    unfold on_record at hok
    cases hls : RegistryState.lookupSpan st id with
    | none => rw [hls] at hok; exact absurd hok (by simp)
    | some s =>
        cases s with
        | none => rw [hls] at hok; exact absurd hok (by simp)
        | some m =>
            rw [hls] at hok
            simp only [Except.ok.injEq] at hok
            subst hok
            exact lookupSpan_setStorage_ne st id id' _ hne

/-- Witness for C3: recording on span 1 leaves sibling span 2's store as it
was. -/
theorem c3_store_last_write_wins_witness :
    RegistryState.lookupSpan
      (RegistryState.setStorage [(1, some []), (2, some [("y", JValue.null)])] 1
        (JsonVisitor.recordAll [] [("x", FieldValue.bool true)])) 2
      = some (some [("y", JValue.null)]) := by
  have h := c3_store_last_write_wins.2.2.2
    [(1, some []), (2, some [("y", JValue.null)])]
    (RegistryState.setStorage [(1, some []), (2, some [("y", JValue.null)])] 1
      (JsonVisitor.recordAll [] [("x", FieldValue.bool true)]))
    1 2 [("x", FieldValue.bool true)] (by rfl) (by decide)
  rw [h]
  decide

/-- C4: `enabled` accepts a level exactly when its severity is at or above
the configured minimum; the advertised hint equals the configured minimum;
and a rejected level leads to no merge and no sink call for an event and no
store allocation for a span (the host's gating of callbacks is modelled from
the spec's interface contract). -/
theorem c4_level_gate {O F : Type} (layer : JsonLayer O F) (l : Level) :
    JsonLayer.enabled layer l = severityAtOrAbove l layer.max_level
    ∧ JsonLayer.max_level_hint layer = some layer.max_level
    ∧ (JsonLayer.enabled layer l = false →
        (∀ scope ev meta ts, processEvent layer l scope ev meta ts = none)
        ∧ (∀ attrs id st, processNewSpan layer l attrs id st = .ok st)) := by
  refine ⟨?_, rfl, ?_⟩
  · unfold JsonLayer.enabled
    cases layer.max_level <;> cases l <;> rfl
  · intro hoff
    constructor
    · intro scope ev meta ts
      simp [processEvent, hoff]
    · intro attrs id st
      simp [processNewSpan, hoff]

/-- Witness for C4: a TRACE event and a TRACE span under the default (INFO)
configuration are dropped with no work. -/
theorem c4_level_gate_witness :
    processEvent JsonLayer.default Level.trace none [] ⟨"t", "n", Level.trace⟩ "ts" = none
    ∧ processNewSpan JsonLayer.default Level.trace [] 1 [] = .ok [] := by
  have h := (c4_level_gate JsonLayer.default Level.trace).2.2 (by decide)
  exact ⟨h.1 none [] ⟨"t", "n", Level.trace⟩ "ts", h.2 [] 1 []⟩

/-- Expected JSON kind for each visited value kind: floats map to a number
when finite and to null when NaN or infinite; signed and unsigned integers
to numbers; booleans to booleans; strings, error display texts and debug
renderings to strings. -/
def FieldValue.kindSpec : FieldValue → JKind
  | .f64 v => if v.isFinite then .number else .null
  | .i64 _ => .number
  | .u64 _ => .number
  | .bool _ => .boolean
  | .str _ => .string
  | .error _ => .string
  | .debug _ => .string

/-- C5 counterexample: a non-finite 64-bit float (NaN or an infinity) is
visited into the map as JSON null, not as a JSON number — `serde_json`'s
conversion used by the visitor's `record_f64` arm cannot represent it as a
number — refuting the claim that every 64-bit float becomes a JSON number. -/
theorem c5_counterexample :
    JMap.get? (JsonVisitor.visit [] "f" (FieldValue.f64 ⟨false, 0⟩)) "f"
        = some JValue.null
    ∧ JValue.kind JValue.null ≠ JKind.number := by
  decide

/-- C5 (amended): the visitor is total over the closed set of value kinds;
every visited (name, value) pair is inserted into the caller's mapping (never
dropped, no kind fails) and other keys are untouched; each kind maps to
exactly one JSON kind — a finite float to a number and a non-finite float to
null, integers to numbers, booleans to booleans, strings, error display
texts and debug renderings to strings. -/
theorem c5_visitor_total (m : JMap) (name : String) (v : FieldValue) :
    JMap.get? (JsonVisitor.visit m name v) name = some (FieldValue.toJson v)
    ∧ JValue.kind (FieldValue.toJson v) = FieldValue.kindSpec v
    ∧ (∀ k, k ≠ name → JMap.get? (JsonVisitor.visit m name v) k = JMap.get? m k) := by
  refine ⟨?_, ?_, ?_⟩
  · rw [JsonVisitor.visit_eq_insert]
    exact JMap.get?_insert_self m name _
  · cases v with
    | f64 x =>
        by_cases hf : x.isFinite = true
        · simp [FieldValue.toJson, FieldValue.kindSpec, hf, JValue.kind]
        · simp [FieldValue.toJson, FieldValue.kindSpec, hf, JValue.kind]
    | i64 x => rfl
    | u64 x => rfl
    | bool b => rfl
    | str s => rfl
    | error d => rfl
    | debug d => rfl
  · intro k hk
    rw [JsonVisitor.visit_eq_insert]
    exact JMap.get?_insert_ne m name k _ hk

/-- Witness for C5 at a concrete map, field and unrelated key. -/
theorem c5_visitor_total_witness :
    JMap.get? (JsonVisitor.visit [("a", JValue.bool true)] "b" (FieldValue.u64 7)) "a"
      = some (JValue.bool true) :=
  (c5_visitor_total [("a", JValue.bool true)] "b" (FieldValue.u64 7)).2.2 "a" (by decide)

/-- C6: an event emitted with no enclosing span is processed without error,
and the record holds exactly the event's own fields plus the four reserved
metadata keys — nothing span-derived. -/
theorem c6_no_span_event (ev : List (String × FieldValue)) (meta : EventMetadata)
    (ts : String) :
    ∃ r, on_event none ev meta ts = .ok r
      ∧ JMap.get? r "target" = some (.str meta.target)
      ∧ JMap.get? r "name" = some (.str meta.name)
      ∧ JMap.get? r "log_level" = some (.str (Level.as_str meta.level))
      ∧ JMap.get? r "timestamp" = some (.str ts)
      ∧ (∀ k, k ∉ reservedKeys →
          JMap.get? r k = Option.map FieldValue.toJson (lastWrite ev k))
      ∧ (∀ k, k ∈ JMap.keys r ↔ k ∈ reservedKeys ∨ k ∈ ev.map Prod.fst) := by
  refine ⟨assemble [] ev meta ts, rfl, get?_assemble_target _ _ _ _,
    get?_assemble_name _ _ _ _, get?_assemble_log_level _ _ _ _,
    get?_assemble_timestamp _ _ _ _, ?_, ?_⟩
  · intro k hk
    rw [get?_assemble_not_reserved _ _ _ _ _ hk]
    cases lastWrite ev k <;> rfl
  · intro k
    rw [mem_keys_assemble]
    simp [JMap.keys]

/-- Witness for C6 at a concrete span-less event. -/
theorem c6_no_span_event_witness :
    ∃ r, on_event none [("event_field", FieldValue.i64 (-3))]
        ⟨"tg", "nm", Level.info⟩ "T" = .ok r
      ∧ JMap.get? r "event_field" = some (JValue.num (JNumber.int (-3))) := by
  obtain ⟨r, hok, _, _, _, _, hnr, _⟩ :=
    c6_no_span_event [("event_field", FieldValue.i64 (-3))] ⟨"tg", "nm", Level.info⟩ "T"
  refine ⟨r, hok, ?_⟩
  rw [hnr "event_field" (by decide)]
  rfl

/-- C7: invoking `on_record` for a live span whose store was never created
fails with the unreachable-state (`missingStorage`) error rather than
returning normally; and whenever `on_new_span` ran first for that span,
`on_record` succeeds, so under the host's callback-ordering contract the
failure branch is unreachable. -/
theorem c7_record_unreachable_state :
    (∀ (st : RegistryState) (id : Nat) (vs : List (String × FieldValue)),
        RegistryState.lookupSpan st id = some none →
        on_record id vs st = .error .missingStorage)
    ∧ (∀ (attrs : List (String × FieldValue)) (id : Nat) (st st' : RegistryState)
        (vs : List (String × FieldValue)),
        on_new_span attrs id st = .ok st' →
        on_record id vs st' =
          .ok (RegistryState.setStorage st' id
            (JsonVisitor.recordAll (JsonVisitor.recordAll [] attrs) vs))) := by
  constructor
  · intro st id vs h
    unfold on_record
    rw [h]
  · intro attrs id st st' vs h
    unfold on_new_span at h
    cases hls : RegistryState.lookupSpan st id with
    | none => rw [hls] at h; exact absurd h (by simp)
    | some s =>
        rw [hls] at h
        simp only [Except.ok.injEq] at h
        subst h
        unfold on_record
        rw [lookupSpan_setStorage_self st id _ s hls]

/-- Witness for C7: a live span with no storage makes `on_record` fail with
the unreachable-state error. -/
theorem c7_record_unreachable_state_witness :
    on_record 1 [] [(1, none)] = .error LayerError.missingStorage :=
  c7_record_unreachable_state.1 [(1, none)] 1 [] (by decide)

/-- C8 counterexample: on an underlying stdout write failure the default
sink's write panics on the calling thread (the `println` macro propagates the
failure as a panic) instead of succeeding — refuting the claim that the write
never panics on a transient I/O failure and reports through a side channel. -/
theorem c8_counterexample :
    JsonStdout.write JsonStdout.default [] StdoutIO.writeFailed
        = .error "failed printing to stdout"
    ∧ JsonStdout.write JsonStdout.default [] StdoutIO.writeFailed ≠ .ok () := by
  constructor
  · rfl
  · intro h
    exact absurd h (by simp [JsonStdout.write])

/-- C8 (amended): serializing the record cannot fail and the write succeeds
whenever the underlying stdout write succeeds; but on an I/O write failure
the call panics on the calling thread instead of reporting the error through
a side diagnostic channel. -/
theorem c8_write_panics_on_io_failure (o : JsonStdout) (v : JMap) :
    JsonStdout.write o v StdoutIO.ok = .ok ()
    ∧ JsonStdout.write o v StdoutIO.writeFailed = .error "failed printing to stdout" :=
  ⟨rfl, rfl⟩

/-- C9: the default layer has minimum severity INFO — DEBUG and TRACE events
are rejected until `with_level` admits them — the ISO 8601 default timestamp
format and a non-pretty stdout sink; `pretty()` differs from the default only
in the sink's pretty flag. -/
theorem c9_default_configuration :
    JsonLayer.default.max_level = LevelFilter.info
    ∧ JsonLayer.default.timestamp_format = Iso8601.DEFAULT
    ∧ JsonLayer.default.output.pretty = false
    ∧ JsonLayer.enabled JsonLayer.default Level.error = true
    ∧ JsonLayer.enabled JsonLayer.default Level.warn = true
    ∧ JsonLayer.enabled JsonLayer.default Level.info = true
    ∧ JsonLayer.enabled JsonLayer.default Level.debug = false
    ∧ JsonLayer.enabled JsonLayer.default Level.trace = false
    ∧ JsonLayer.enabled (JsonLayer.with_level JsonLayer.default LevelFilter.debug)
        Level.debug = true
    ∧ JsonLayer.pretty.output.pretty = true
    ∧ JsonLayer.pretty.timestamp_format = JsonLayer.default.timestamp_format
    ∧ JsonLayer.pretty.max_level = JsonLayer.default.max_level := by
  decide

/-- C10: each builder method replaces exactly its own configuration
component and leaves the other two unchanged. -/
theorem c10_builder_methods_frame {O F O2 F2 : Type} (l : JsonLayer O F) (o : O2)
    (f : F2) (lv : LevelFilter) :
    ((JsonLayer.with_output l o).output = o
      ∧ (JsonLayer.with_output l o).timestamp_format = l.timestamp_format
      ∧ (JsonLayer.with_output l o).max_level = l.max_level)
    ∧ ((JsonLayer.with_timestamp_format l f).timestamp_format = f
      ∧ (JsonLayer.with_timestamp_format l f).output = l.output
      ∧ (JsonLayer.with_timestamp_format l f).max_level = l.max_level)
    ∧ ((JsonLayer.with_level l lv).max_level = lv
      ∧ (JsonLayer.with_level l lv).output = l.output
      ∧ (JsonLayer.with_level l lv).timestamp_format = l.timestamp_format) :=
  ⟨⟨rfl, rfl, rfl⟩, ⟨rfl, rfl, rfl⟩, ⟨rfl, rfl, rfl⟩⟩
